import Mathlib

/-!
Verification of phoebe.js (src/phoebe.js) against its natural-language
specification.  The definitions below are a shallow embedding of the
relevant parts of the source; each definition's doc comment names the
source function (and lines in src/unnamed/part_000) it embeds.
-/

namespace Phoebe

/- ## Expression evaluator (`js`, lines 48-104)

`js.get` / `js.set` / `js.exec` each compile and invoke a snippet; the
underlying invocation either returns normally or throws.  We model the
underlying call as an `Except` outcome supplied by the environment, and
embed the `try`/`catch` wrappers: `get` logs the error and rethrows,
`set` and `exec` log the error and swallow it (they return normally).
The compilation cache (`cache.set(cache_key, ...)`) only memoises the
compiled function and has no observable effect on these outcomes, so it
is not modelled here. -/

/-- A diagnostic record written by `console.error` in the three
`catch` blocks of `js` (lines 66, 84, 100). -/
inductive JsLog (E : Type) where
  | getErr (e : E)
  | setErr (e : E)
  | execErr (e : E)
deriving DecidableEq

/-- `js.get` (lines 59-69): on success returns the value; on a thrown
error it logs and rethrows (`throw e`), so the error propagates. -/
def jsGet {E A : Type} (run : Except E A) : Except E A × List (JsLog E) :=
  match run with
  | .ok v => (.ok v, [])
  | .error e => (.error e, [.getErr e])

/-- `js.set` (lines 77-86): the `catch` block only logs; the exception
is swallowed, so the call always returns normally. -/
def jsSet {E : Type} (run : Except E Unit) : Except E Unit × List (JsLog E) :=
  match run with
  | .ok _ => (.ok (), [])
  | .error e => (.ok (), [.setErr e])

/-- `js.exec` (lines 93-102): same swallowing behaviour as `js.set`. -/
def jsExec {E : Type} (run : Except E Unit) : Except E Unit × List (JsLog E) :=
  match run with
  | .ok _ => (.ok (), [])
  | .error e => (.ok (), [.execErr e])

/-- A caller performing a sequence of read evaluations through `js.get`
(e.g. the directive applications of one render step): the first
propagated error aborts the remaining steps. -/
def readSteps {E A : Type} : List (Except E A) → Except E (List A)
  | [] => .ok []
  | s :: rest =>
    match (jsGet s).1 with
    | .error e => .error e
    | .ok v =>
      match readSteps rest with
      | .error e => .error e
      | .ok vs => .ok (v :: vs)

/-- A caller performing a sequence of side-effect evaluations through
`js.exec`: every step runs (errors are swallowed), and the logs of the
failed steps are collected. -/
def execSteps {E : Type} : List (Except E Unit) → List (JsLog E)
  | [] => []
  | s :: rest => (jsExec s).2 ++ execSteps rest

/- ## Reactive-state wrapper (`state` / `wrap`, lines 108-152)

JavaScript values are modelled by `JsVal`: primitives are collapsed to a
`Nat` code, and `Date` / `RegExp` / DOM `Element` instances and plain
objects are represented by identity (a `Nat` address), which is what the
source's `instanceof` tests and `!==` comparisons observe. -/

/-- A JavaScript value as observed by `wrap` and the proxy traps. -/
inductive JsVal where
  | undefv
  | prim (code : Nat)
  | date (id : Nat)
  | regexp (id : Nat)
  | element (id : Nat)
  | obj (addr : Nat)
deriving DecidableEq

/-- A plain JavaScript object: an association of (numbered) property
keys to values.  Keys are unique in any object built by the traps. -/
abbrev JsObj := List (Nat × JsVal)

/-- `target[key]`: a missing property reads as `undefined`. -/
def objGet (o : JsObj) (k : Nat) : JsVal := (o.lookup k).getD .undefv

/-- `key in target`. -/
def objHas (o : JsObj) (k : Nat) : Bool := (o.lookup k).isSome

/-- `Reflect.set(target, key, value)`. -/
def objSet (o : JsObj) (k : Nat) (v : JsVal) : JsObj :=
  if objHas o k then o.map (fun kv => if kv.1 = k then (k, v) else kv)
  else o ++ [(k, v)]

/-- `Reflect.deleteProperty(target, key)`. -/
def objDelete (o : JsObj) (k : Nat) : JsObj := o.filter (fun kv => kv.1 ≠ k)

/-- Result of a proxy trap: the updated target object and whether
`renderer.schedule(rootNode)` was invoked. -/
structure TrapResult where
  newObj : JsObj
  scheduled : Bool
deriving DecidableEq

/-- The proxy `set` trap (lines 134-138): reads `old = target[key]`,
schedules a re-render iff `old !== value`, then performs the write. -/
def setTrap (o : JsObj) (k : Nat) (v : JsVal) : TrapResult :=
  { newObj := objSet o k v, scheduled := decide (objGet o k ≠ v) }

/-- The proxy `deleteProperty` trap (lines 139-143): schedules a
re-render iff `key in target` held before the deletion. -/
def deleteTrap (o : JsObj) (k : Nat) : TrapResult :=
  { newObj := objDelete o k, scheduled := objHas o k }

/- ### Wrapper creation and the wrapper cache (lines 118-151)

`wrap` returns non-objects (falsy values, primitives, `Element`, `Date`,
`RegExp`) unchanged; for a plain object it returns the cached proxy if
one exists, else it creates a fresh proxy and caches it under the target
object.  Proxy identities are drawn from a fresh counter; the cache maps
a target address to its proxy identity. -/

/-- The `cache : WeakMap<object, Proxy>` of the state wrapper together
with a supply of fresh proxy identities. -/
structure WrapSt where
  cache : Nat → Option Nat
  next : Nat

/-- What a read through the state wrapper yields: either the value
itself (non-objects, returned raw) or a proxy wrapping a target
object. -/
inductive WVal where
  | raw (v : JsVal)
  | prox (id : Nat) (target : Nat)
deriving DecidableEq

/-- The address of `v` when the guard of `wrap` (lines 120-125) lets it
through to be wrapped, `none` when `wrap` returns it unchanged. -/
def isWrappable : JsVal → Option Nat
  | .obj a => some a
  | _ => none

/-- `wrap(target)` (lines 118-149). -/
def wrapVal (s : WrapSt) (v : JsVal) : WVal × WrapSt :=
  match v with
  | .obj a =>
    match s.cache a with
    | some p => (.prox p a, s)
    | none =>
      (.prox s.next a,
       { cache := fun b => if b = a then some s.next else s.cache b,
         next := s.next + 1 })
  | v => (.raw v, s)

/-- The identity `wrap` hands out for target address `a` in state `s`:
the cached proxy when present, else the next fresh identity. -/
def wrapIdOf (s : WrapSt) (a : Nat) : Nat := (s.cache a).getD s.next

/-- The proxy `get` trap (lines 130-133): reads the underlying property
and wraps it.  `heap a k` is `Reflect.get` on target `a`, key `k`. -/
def proxGet (heap : Nat → Nat → JsVal) (s : WrapSt) (a k : Nat) :
    WVal × WrapSt :=
  wrapVal s (heap a k)

/-- Reading a nested property path through the wrapped state, starting
from the target object at address `a`: each step goes through the proxy
`get` trap; an intermediate non-object value has no properties to read,
so only paths through objects are defined. -/
def readPath (heap : Nat → Nat → JsVal) :
    List Nat → WrapSt → Nat → Option (WVal × WrapSt)
  | [], _, _ => none
  | [k], s, a => some (proxGet heap s a k)
  | k :: k2 :: rest, s, a =>
    match proxGet heap s a k with
    | (.prox _ b, s2) => readPath heap (k2 :: rest) s2 b
    | (.raw _, _) => none

/-- Cache extension order: every cached proxy of `s` is still cached,
with the same identity, in `t`. -/
def cacheLe (s t : WrapSt) : Prop :=
  ∀ a p, s.cache a = some p → t.cache a = some p

/-- A concrete heap for witnesses: object 0 holds object 1 at key 0,
object 1 holds object 2 at key 1, everything else is a primitive. -/
def exHeap : Nat → Nat → JsVal := fun a k =>
  if a = 0 ∧ k = 0 then .obj 1
  else if a = 1 ∧ k = 1 then .obj 2
  else .prim 7

/-- The empty wrapper cache. -/
def exS0 : WrapSt := ⟨fun _ => none, 0⟩

/-- The wrapper cache after reading the path `[0, 1]` from `exHeap`
starting at object 0: object 1 got proxy 0, object 2 got proxy 1. -/
def exSF : WrapSt :=
  ⟨fun b => if b = 2 then some 1 else if b = 1 then some 0 else none, 2⟩

/- ## Scheduler (`renderer.schedule` and the debounce flush, lines 288-312)

`contains` is the DOM containment test `rerenderEl.contains(el)`
(reflexive: a node contains itself).  The pending set is modelled as a
list in insertion order; `schedule` adds `el` when the set is empty
(also arming the debounce timer), and otherwise adds it unless it is
already present or some pending root contains it. -/

/-- `schedule(el)` (lines 294-312) acting on the pending set. -/
def schedule (ctn : Nat → Nat → Bool) (pending : List Nat) (el : Nat) :
    List Nat :=
  if pending.isEmpty then [el]
  else if el ∈ pending then pending
  else if pending.any (fun r => ctn r el) then pending
  else pending ++ [el]

/-- The pending set produced by a sequence of `schedule` calls within
one debounce window (the window opens with an empty set). -/
def scheduleAll (ctn : Nat → Nat → Bool) (calls : List Nat) : List Nat :=
  calls.foldl (schedule ctn) []

/-- How many of the renders of the flush (lines 296-301, one
`renderTree` per pending root) render the subtree of `e`: the number of
pending roots whose subtree contains `e`. -/
def coverCount (ctn : Nat → Nat → Bool) (pending : List Nat) (e : Nat) :
    Nat :=
  (pending.filter (fun r => ctn r e)).length

/-- The pending-set containment invariant claimed by the spec: no
element of the set is a strict descendant of another element. -/
def noStrictDesc (ctn : Nat → Nat → Bool) (l : List Nat) : Prop :=
  ∀ a ∈ l, ∀ b ∈ l, a ≠ b → ctn a b = false

/-- The ancestor-or-self chain of `e` in a DOM given by a parent map,
bounded by `fuel` (trees are finite). -/
def selfAnc (parentOf : Nat → Option Nat) : Nat → Nat → List Nat
  | 0, e => [e]
  | fuel + 1, e =>
    e :: (match parentOf e with
          | some p => selfAnc parentOf fuel p
          | none => [])

/-- DOM `a.contains(b)` derived from a parent map: `a` is on the
ancestor-or-self chain of `b`. -/
def containsVia (parentOf : Nat → Option Nat) (fuel : Nat) (a b : Nat) :
    Bool :=
  decide (a ∈ selfAnc parentOf fuel b)

/-- A two-element DOM: element 1 is a child of element 0. -/
def parentEx : Nat → Option Nat := fun n => if n = 1 then some 0 else none

/-- Containment for the two-element DOM. -/
def ctnEx : Nat → Nat → Bool := containsVia parentEx 3

/- ## Scope resolution (`renderer.buildScope`, lines 319-348)

A context contribution (`registry(el).loopContextValue` or
`.withContextValue`) is a small object mapping variable names to values;
values are collapsed to `Nat` codes.  A scope is the merged object; only
lookups are observable, so it is modelled as a partial map.  The
`contextAncestors` memo (lines 323-336) caches the very list the walk
computes, so the model computes that list directly. -/

/-- A context contribution object: variable name to value. -/
abbrev CtxObj := List (String × Nat)

/-- A scope as observed by expression lookup. -/
abbrev Scope := String → Option Nat

/-- The empty scope literal `{}` (line 321). -/
def emptyScope : Scope := fun _ => none

/-- Object spread `{ ...sc, ...m }`: properties of `m` override. -/
def spreadInto (sc : Scope) (m : CtxObj) : Scope := fun k =>
  match m.lookup k with
  | some v => some v
  | none => sc k

/-- The per-document data `buildScope` consults: the parent map and the
registry's `loopContextValue` / `withContextValue` entries. -/
structure DomReg where
  parentOf : Nat → Option Nat
  loopCtx : Nat → Option CtxObj
  withCtx : Nat → Option CtxObj

/-- The upward walk of lines 328-333: starting at the element itself,
collect every element that carries a loop or with context, stopping at
the root (exclusive) or at a missing parent.  The resulting list is
ordered nearest-first.  `fuel` bounds the walk (trees are finite). -/
def ctxAncestors (d : DomReg) (root : Nat) : Nat → Option Nat → List Nat
  | 0, _ => []
  | _, none => []
  | fuel + 1, some cur =>
    if cur = root then []
    else
      (if (d.loopCtx cur).isSome || (d.withCtx cur).isSome then [cur] else [])
        ++ ctxAncestors d root fuel (d.parentOf cur)

/-- One iteration of the merge loop (lines 341-345):
`if loopCtx: scope = {...scope, ...loopCtx}` then likewise for
`withCtx`. -/
def applyAnc (d : DomReg) (sc : Scope) (anc : Nat) : Scope :=
  let sc1 := match d.loopCtx anc with
             | some m => spreadInto sc m
             | none => sc
  match d.withCtx anc with
  | some m => spreadInto sc1 m
  | none => sc1

/-- `buildScope(el)` (lines 319-348): fold the merge over the
nearest-first ancestor list, starting from `{}`. -/
def buildScope (d : DomReg) (root fuel el : Nat) : Scope :=
  (ctxAncestors d root fuel (some el)).foldl (applyAnc d) emptyScope

/-- The C1 scenario: root 0, a loop item root 1 with loop context
`x = 10`, a `<phoebe-with>` 2 inside it with `x = 20`, and a plain
descendant 3 of the with element. -/
def dNestedWith : DomReg :=
  { parentOf := fun n =>
      if n = 3 then some 2 else if n = 2 then some 1
      else if n = 1 then some 0 else none,
    loopCtx := fun n => if n = 1 then some [("x", 10)] else none,
    withCtx := fun n => if n = 2 then some [("x", 20)] else none }

/-- The C10 scenario: root 0, a loop item root 1 with loop context
`x = 2`, and a nested loop item root 2 (a child of 1) whose own loop
context binds both `x = 1` and `y = 1`. -/
def dOwnCtx : DomReg :=
  { parentOf := fun n =>
      if n = 2 then some 1 else if n = 1 then some 0 else none,
    loopCtx := fun n =>
      if n = 2 then some [("x", 1), ("y", 1)]
      else if n = 1 then some [("x", 2)] else none,
    withCtx := fun _ => none }

/- ## Directive dispatch order on one element (`processElement`,
lines 386-404) and the class directives (lines 213-215, 273-276)

`processElement` collects the element's `phoebe`-prefixed attribute
names in declaration order and sorts them with the comparator
`(a, b) => +(a === "phoebe:class") - +(b === "phoebe:class")`.
JavaScript `Array.prototype.sort` is stable, and a stable sort by a
two-valued key is exactly a stable partition: all names with key 0 (in
declaration order) followed by all names with key 1 (in declaration
order). -/

/-- The comparator's sort key: `+(a === "phoebe:class")`. -/
def phoebeSortKey (a : String) : Nat := if a = "phoebe:class" then 1 else 0

/-- The stable sort of line 389 applied to the declaration-ordered
attribute names. -/
def sortPhoebeAttrs (attrs : List String) : List String :=
  attrs.filter (fun a => phoebeSortKey a = 0)
    ++ attrs.filter (fun a => phoebeSortKey a = 1)

/-- The class state of one element: the live `class` attribute as a
token list, and the registry's `originalClass` snapshot
(`undefined` until the first `phoebe:class` application). -/
structure ClassSt where
  classes : List String
  originalClass : Option (List String)
deriving DecidableEq

/-- `handleClass` (lines 213-215): `el.classList.toggle(name, force)` —
adds the token at the end when forced on and absent, removes it when
forced off. -/
def toggleClass (st : ClassSt) (name : String) (force : Bool) : ClassSt :=
  if force then
    { st with classes :=
        if name ∈ st.classes then st.classes else st.classes ++ [name] }
  else { st with classes := st.classes.filter (fun c => c ≠ name) }

/-- `handleAttribute` for `class` (lines 273-276): snapshot the current
`class` attribute into `originalClass` on first application, then
rewrite the attribute to the snapshot followed by the expression's
value (both as token lists). -/
def bulkClass (st : ClassSt) (value : List String) : ClassSt :=
  let orig := st.originalClass.getD st.classes
  { classes := orig ++ value, originalClass := some orig }

/-- The two class-affecting directives an element can carry. -/
inductive ClassDirective where
  | bulk (value : List String)
  | toggle (name : String) (force : Bool)
deriving DecidableEq

/-- Whether the directive's attribute name is `phoebe:class`. -/
def ClassDirective.isBulk : ClassDirective → Bool
  | .bulk _ => true
  | .toggle _ _ => false

/-- Apply one class directive to the element state. -/
def applyClassDirective (st : ClassSt) : ClassDirective → ClassSt
  | .bulk value => bulkClass st value
  | .toggle name force => toggleClass st name force

/-- One render pass over the element's class directives: the
attribute-name sort of line 389 moves the names whose key is 1 (exactly
`phoebe:class`) behind all others, then the handlers run in that
order. -/
def renderClassPass (st : ClassSt) (ds : List ClassDirective) : ClassSt :=
  (ds.filter (fun d => !d.isBulk) ++ ds.filter (fun d => d.isBulk)).foldl
    applyClassDirective st

/- ## Conditional construct (`PhoebeIf.render`, lines 641-666)

Child nodes are identified by `Nat`.  The element's state is whether the
init marker template exists (`firstChild.dataset.phoebeRole === 'if'`),
the nodes parked inside the template (`template.content.childNodes`) and
the live sibling nodes after the template.  Before the first render the
template does not exist and the original children are the live nodes. -/

/-- The `CustomEvent`s dispatched at lines 659 and 663. -/
inductive IfEvt where
  | becameTrue
  | becameFalse
deriving DecidableEq

/-- State of one `<phoebe-if>`. -/
structure IfSt where
  initDone : Bool
  content : List Nat
  live : List Nat
deriving DecidableEq

/-- A `<phoebe-if>` before its first render: no template yet, its
markup children are its (live) child nodes. -/
def initialIf (children : List Nat) : IfSt :=
  { initDone := false, content := [], live := children }

/-- `PhoebeIf.render(scope)` (lines 641-666).  `guard` is the
truthiness of the `if` expression.  Init moves all children into the
fresh template; then `isShowing` is `template.content.childNodes.length
=== 0`; showing moves the content back as live siblings, hiding moves
every live sibling into the content; the events fire only when the
corresponding move happens on a non-initial render. -/
def renderIf (guard : Bool) (st : IfSt) : IfSt × List IfEvt :=
  let isInit := !st.initDone
  let st1 := if st.initDone then st
             else { initDone := true, content := st.live, live := [] }
  let shouldShow := guard
  let isShowing := st1.content.isEmpty
  if shouldShow && !isShowing then
    ({ initDone := true, content := [], live := st1.content },
     if isInit then [] else [.becameTrue])
  else if !shouldShow && isShowing then
    ({ initDone := true, content := st1.content ++ st1.live, live := [] },
     if isInit then [] else [.becameFalse])
  else (st1, [])

/-- The reachable states of an initialised `<phoebe-if>` whose captured
children are `children`: either hidden (everything parked in the
template) or showing (everything live). -/
def IfInv (children : List Nat) (st : IfSt) : Prop :=
  st.initDone = true ∧
    ((st.content = children ∧ st.live = []) ∨
     (st.content = [] ∧ st.live = children))

/- ## Loop construct (`PhoebeFor.render`, lines 486-617)

The loop's children are the init template (always first, never moved)
followed by the rendered item elements; `kids` models the item elements
only, in DOM order, so `template.nextElementSibling` is `kids.head?`
and `insertBefore(el, null)` appends to `kids`.  Item elements are
identified by `Nat`, cloned elements take ids from a fresh counter.
`reg e` is `registry(e).loopContextValue`, the context object holding
the item value and the index (the `var` and `index` names are fixed
but anonymous here: a context is the pair).  `keyMap` is the
`#keyElements` map in insertion order. -/

/-- State of one `<phoebe-for>` after init. -/
structure ForSt (Item Key : Type) where
  kids : List Nat
  keyMap : List (Key × Nat)
  reg : Nat → Option (Item × Nat)
  fresh : Nat

/-- A freshly initialised loop: no rendered items yet. -/
def forInit (Item Key : Type) : ForSt Item Key :=
  { kids := [], keyMap := [], reg := fun _ => none, fresh := 0 }

/-- `e.nextElementSibling` within the item children: the element after
the first occurrence of `e`, if any. -/
def nextSib : List Nat → Nat → Option Nat
  | [], _ => none
  | x :: rest, e => if x = e then rest.head? else nextSib rest e

/-- Insert `el` before the first occurrence of `r` (assumed present;
appended otherwise, which no reachable call hits). -/
def insBeforeRef : List Nat → Nat → Nat → List Nat
  | [], el, _ => [el]
  | x :: xs, el, r => if x = r then el :: x :: xs else x :: insBeforeRef xs el r

/-- DOM `parent.insertBefore(el, ref)` restricted to the item children:
detach `el` from its current position, then insert it before `ref`
(`ref = none` appends).  Per the DOM pre-insert steps, when `ref` is
`el` itself the node ends up before its own next sibling, i.e. the
order is unchanged. -/
def domInsertBefore (kids : List Nat) (el : Nat) (ref : Option Nat) :
    List Nat :=
  match ref with
  | none => kids.filter (fun x => x ≠ el) ++ [el]
  | some r =>
    if r = el then kids
    else insBeforeRef (kids.filter (fun x => x ≠ el)) el r

/-- The keyed render loop (lines 534-570).  `currentEl` is the cursor
element; `visited` accumulates `visitedKeys` in visit order.  For a key
already indexed, the element is moved (unless it is the cursor) by
`insertBefore(keyEl, currentEl ? currentEl.nextElementSibling : null)`
and its context is overwritten; for a new key a clone is inserted the
same way and indexed.  In both branches the cursor becomes the
processed element's next sibling. -/
def keyedGo {Item Key : Type} [DecidableEq Key] (keyOf : Item → Key) :
    List Item → Nat → Option Nat → List Key → ForSt Item Key →
    ForSt Item Key × List Key
  | [], _, _, visited, st => (st, visited)
  | item :: rest, idx, currentEl, visited, st =>
    let ctx := (item, idx)
    let key := keyOf item
    let visited2 := visited ++ [key]
    let refEl := match currentEl with
                 | none => none
                 | some c => nextSib st.kids c
    match st.keyMap.lookup key with
    | some keyEl =>
      let needMove := match currentEl with
                      | none => true
                      | some c => keyEl ≠ c
      let kids2 := if needMove then domInsertBefore st.kids keyEl refEl
                   else st.kids
      let st2 : ForSt Item Key :=
        { st with kids := kids2,
                  reg := fun e => if e = keyEl then some ctx else st.reg e }
      keyedGo keyOf rest (idx + 1) (nextSib kids2 keyEl) visited2 st2
    | none =>
      let newEl := st.fresh
      let kids2 := domInsertBefore st.kids newEl refEl
      let st2 : ForSt Item Key :=
        { kids := kids2,
          keyMap := st.keyMap ++ [(key, newEl)],
          reg := fun e => if e = newEl then some ctx else st.reg e,
          fresh := st.fresh + 1 }
      keyedGo keyOf rest (idx + 1) (nextSib kids2 newEl) visited2 st2

/-- The prune loop (lines 573-577): every index entry whose key was not
visited in this pass has its element removed from the DOM and is
dropped from the index. -/
def keyedPrune {Item Key : Type} [DecidableEq Key]
    (st : ForSt Item Key) (visited : List Key) : ForSt Item Key :=
  let stale := st.keyMap.filter (fun kv => decide (kv.1 ∉ visited))
  { st with
    kids := stale.foldl (fun ks kv => ks.filter (fun x => x ≠ kv.2)) st.kids,
    keyMap := st.keyMap.filter (fun kv => decide (kv.1 ∈ visited)) }

/-- One keyed render pass (lines 525-577): the cursor starts at
`template.nextElementSibling`, the item loop runs, then stale index
entries are pruned. -/
def keyedRender {Item Key : Type} [DecidableEq Key] (keyOf : Item → Key)
    (items : List Item) (st : ForSt Item Key) : ForSt Item Key :=
  let r := keyedGo keyOf items 0 st.kids.head? [] st
  keyedPrune r.1 r.2

/-- The unkeyed render loop (lines 581-608).  The cursor walks the
existing item elements in DOM order; it is modelled by its position,
`none` once `currentEl` has become null (and it then stays null: newly
appended clones are never revisited, the source keeps `currentEl`
null in its create branch).  Existing elements get their context
overwritten in place; once the cursor is exhausted, each further item
is cloned and appended. -/
def unkeyedGo {Item Key : Type} :
    List Item → Nat → Option Nat → ForSt Item Key → ForSt Item Key
  | [], _, pos, st =>
    match pos with
    | none => st
    | some p => { st with kids := st.kids.take p }
  | item :: rest, idx, pos, st =>
    match pos with
    | none =>
      let newEl := st.fresh
      unkeyedGo rest (idx + 1) none
        { st with kids := st.kids ++ [newEl],
                  reg := fun e => if e = newEl then some (item, idx) else st.reg e,
                  fresh := st.fresh + 1 }
    | some p =>
      match st.kids.get? p with
      | some c =>
        unkeyedGo rest (idx + 1)
          (if p + 1 < st.kids.length then some (p + 1) else none)
          { st with reg := fun e => if e = c then some (item, idx) else st.reg e }
      | none =>
        let newEl := st.fresh
        unkeyedGo rest (idx + 1) none
          { st with kids := st.kids ++ [newEl],
                    reg := fun e => if e = newEl then some (item, idx) else st.reg e,
                    fresh := st.fresh + 1 }

/-- One unkeyed render pass (lines 579-616): the cursor starts at
`template.nextElementSibling`; after the item loop the remaining
elements from the cursor on are removed (the final `while (currentEl)`
loop). -/
def unkeyedRender {Item Key : Type} (items : List Item)
    (st : ForSt Item Key) : ForSt Item Key :=
  unkeyedGo items 0 (if st.kids.isEmpty then none else some 0) st

/- ## Concrete render scenarios referenced by the theorems -/

/-- First class-directive pass of the C2 scenario: fresh element, bulk
list evaluates to `b`, toggle of `red` forced on. -/
def clsPass1 : ClassSt :=
  renderClassPass ⟨[], none⟩ [.bulk ["b"], .toggle "red" true]

/-- Second pass: same directives, but the toggle condition is now
false. -/
def clsPass2 : ClassSt :=
  renderClassPass clsPass1 [.bulk ["b"], .toggle "red" false]

/-- The key expression of the C6 scenario: items are `(id, v)` records
keyed by `id`. -/
def exKeyOf : Nat × String → Nat := Prod.fst

/-- C6 scenario, first render: items `[(1,a), (2,b)]`. -/
def kst1 : ForSt (Nat × String) Nat :=
  keyedRender exKeyOf [(1, "a"), (2, "b")] (forInit (Nat × String) Nat)

/-- C6 scenario, second render: items `[(2,c), (1,a)]`. -/
def kst2 : ForSt (Nat × String) Nat :=
  keyedRender exKeyOf [(2, "c"), (1, "a")] kst1

/-- C6 scenario, third render: items `[(2,c)]` — key 1 goes stale. -/
def kst3 : ForSt (Nat × String) Nat :=
  keyedRender exKeyOf [(2, "c")] kst2

/-- C7 scenario, first render: iterable `[1, 2, 3]`. -/
def ust1 : ForSt Nat Unit :=
  unkeyedRender [1, 2, 3] (forInit Nat Unit)

/-- C7 scenario, second render: iterable `[1, 2]`. -/
def ust2 : ForSt Nat Unit := unkeyedRender [1, 2] ust1

/- ## Theorems -/

/-- Claim C8: an exception raised during a `js.get` evaluation is
logged and then propagates to the caller, aborting that render step (a
sequence of reads stops at the first error), while an exception raised
during `js.set` or `js.exec` is logged and swallowed — the call returns
normally, so the caller continues with the rest of the tree. -/
theorem js_error_semantics :
    (∀ (E A : Type) (e : E),
        jsGet (A := A) (.error e) = (.error e, [.getErr e])) ∧
    (∀ (E A : Type) (v : A), jsGet (E := E) (.ok v) = (.ok v, [])) ∧
    (∀ (E : Type) (e : E), jsSet (.error e) = (.ok (), [.setErr e])) ∧
    (∀ (E : Type) (r : Except E Unit), (jsSet r).1 = .ok ()) ∧
    (∀ (E : Type) (e : E), jsExec (.error e) = (.ok (), [.execErr e])) ∧
    (∀ (E : Type) (r : Except E Unit), (jsExec r).1 = .ok ()) ∧
    (∀ (E A : Type) (e : E) (rest : List (Except E A)),
        readSteps (.error e :: rest) = .error e) ∧
    (∀ (E : Type) (e : E) (rest : List (Except E Unit)),
        execSteps (.error e :: rest) = .execErr e :: execSteps rest) :=
  ⟨fun _ _ _ => rfl, fun _ _ _ => rfl, fun _ _ => rfl,
   fun _ r => by cases r <;> rfl, fun _ _ => rfl,
   fun _ r => by cases r <;> rfl, fun _ _ _ _ => rfl, fun _ _ _ => rfl⟩

/-- Claim C4: the `set` trap schedules a re-render iff the new value
differs from the old under the `!==` check, the `deleteProperty` trap
schedules iff the key previously existed, and writing a property's
current value back never schedules. -/
theorem state_mutation_schedules_iff_changed :
    (∀ (o : JsObj) (k : Nat) (v : JsVal),
        (setTrap o k v).scheduled = true ↔ objGet o k ≠ v) ∧
    (∀ (o : JsObj) (k : Nat),
        (deleteTrap o k).scheduled = true ↔ objHas o k = true) ∧
    (∀ (o : JsObj) (k : Nat),
        (setTrap o k (objGet o k)).scheduled = false) :=
  ⟨fun o k v => by simp [setTrap],
   fun o k => Iff.rfl,
   fun o k => by simp [setTrap]⟩

/-- Claim C1 (failing input): in the scenario of `dNestedWith` — a
`<phoebe-with>` binding `x = 20` nested inside a loop item binding
`x = 10` — `buildScope` at the descendant merges the nearest-first
ancestor list left to right, so the farthest ancestor (the loop) wins
the collision: the scope yields the loop's `10`, not the
scoped-variable's `20` that the claimed farthest-to-nearest merge
would produce. -/
theorem buildScope_nested_with_sees_loop_value :
    ctxAncestors dNestedWith 0 9 (some 3) = [2, 1] ∧
    dNestedWith.withCtx 2 = some [("x", 20)] ∧
    dNestedWith.loopCtx 1 = some [("x", 10)] ∧
    buildScope dNestedWith 0 9 3 "x" = some 10 ∧
    some (10 : Nat) ≠ some (20 : Nat) := by
  refine ⟨by decide, rfl, rfl, by decide, by decide⟩

/-- Claim C10 (failing input): the upward walk of `buildScope` does
start at the element itself (element 2 heads its own ancestor list, and
its own binding `y = 1` is in scope), but because the merge lets
farther ancestors win collisions, the element's own binding `x = 1` is
shadowed by the outer loop's `x = 2` — so directives on the element do
not always see its own bindings, contrary to the claim. -/
theorem buildScope_own_context_included_but_shadowed :
    ctxAncestors dOwnCtx 0 9 (some 2) = [2, 1] ∧
    dOwnCtx.loopCtx 2 = some [("x", 1), ("y", 1)] ∧
    buildScope dOwnCtx 0 9 2 "y" = some 1 ∧
    dOwnCtx.loopCtx 1 = some [("x", 2)] ∧
    buildScope dOwnCtx 0 9 2 "x" = some 2 ∧
    some (2 : Nat) ≠ some (1 : Nat) := by
  refine ⟨by decide, rfl, by decide, rfl, by decide, by decide⟩

/-- Claim C2 (failing input): the comparator of line 389 sorts
`phoebe:class` to the end, so the bulk class-list rewrite runs after
the individual toggles — contrary to the claim (and to the source's
own inline comment).  Observable divergence: after a first pass with
the toggle on and a second pass with the toggle off, the bulk rewrite
restores the toggled-off class `red` from its stale snapshot, so `red`
is still present although its condition is false. -/
theorem class_directive_order_bulk_last :
    sortPhoebeAttrs ["phoebe:class", "phoebe-class:red"]
        = ["phoebe-class:red", "phoebe:class"] ∧
    clsPass1.classes = ["red", "b"] ∧
    clsPass2.classes = ["red", "b"] ∧
    "red" ∈ clsPass2.classes := by
  refine ⟨by decide, by decide, by decide, by decide⟩

/-- Claim C3 (counterexample): scheduling the descendant 1 before its
ancestor 0 leaves both in the pending set — element 1 is a strict
descendant of element 0, so the claimed containment invariant fails,
and when the debounce timer fires the subtree of element 1 is rendered
twice (once directly, once inside element 0's render). -/
theorem schedule_descendant_first_breaks_invariant :
    scheduleAll ctnEx [1, 0] = [1, 0] ∧
    ctnEx 0 1 = true ∧ (0 : Nat) ≠ 1 ∧
    ¬ noStrictDesc ctnEx (scheduleAll ctnEx [1, 0]) ∧
    coverCount ctnEx (scheduleAll ctnEx [1, 0]) 1 = 2 := by
  refine ⟨by decide, by decide, by decide, ?_, by decide⟩
  intro h
  exact absurd (h 0 (by decide) 1 (by decide) (by decide)) (by decide)

/-- Claim C9 (counterexample): a `<phoebe-if>` with no children is
first rendered with a false guard and then re-rendered with the guard
flipped to true; the flip fires no notification at all (the empty
template content makes the element count as already showing), not the
claimed exactly-one "became true" notification. -/
theorem if_flip_no_children_fires_nothing :
    (renderIf true ((renderIf false (initialIf [])).1)).2 = ([] : List IfEvt) ∧
    ([] : List IfEvt) ≠ [IfEvt.becameTrue] := by
  refine ⟨by decide, by decide⟩

/-- Helper: `wrapVal` only extends the cache. -/
theorem wrapVal_cacheLe (s : WrapSt) (v : JsVal) : cacheLe s (wrapVal s v).2 := by
  intro a p h
  cases v with
  | obj b =>
    simp only [wrapVal]
    cases hc : s.cache b with
    | some q => exact h
    | none =>
      simp only []
      by_cases hab : a = b
      · subst hab; rw [h] at hc; exact absurd hc (by simp)
      · simpa [hab] using h
  | undefv => exact h
  | prim c => exact h
  | date i => exact h
  | regexp i => exact h
  | element i => exact h

/-- Helper: a `wrapVal` outcome is reproduced unchanged by any state
whose cache extends the outcome state's cache. -/
theorem wrapVal_stable {s t u : WrapSt} {v : JsVal} {w : WVal}
    (h : wrapVal s v = (w, t)) (hle : cacheLe t u) : wrapVal u v = (w, u) := by
  cases v with
  | obj b =>
    simp only [wrapVal] at h ⊢
    cases hc : s.cache b with
    | some p =>
      rw [hc] at h
      cases h
      have hb : u.cache b = some p := hle b p hc
      rw [hb]
    | none =>
      rw [hc] at h
      cases h
      have hb : u.cache b = some s.next := hle b s.next (by simp)
      rw [hb]
  | undefv => simp only [wrapVal] at h ⊢; cases h; rfl
  | prim c => simp only [wrapVal] at h ⊢; cases h; rfl
  | date i => simp only [wrapVal] at h ⊢; cases h; rfl
  | regexp i => simp only [wrapVal] at h ⊢; cases h; rfl
  | element i => simp only [wrapVal] at h ⊢; cases h; rfl

/-- Helper: a proxy produced by `wrapVal` is cached in the resulting
state, and only objects produce proxies. -/
theorem wrapVal_obj_cached {s t : WrapSt} {v : JsVal} {p b : Nat}
    (h : wrapVal s v = (.prox p b, t)) : t.cache b = some p ∧ v = .obj b := by
  cases v with
  | obj a =>
    simp only [wrapVal] at h
    cases hc : s.cache a with
    | some q => rw [hc] at h; cases h; exact ⟨hc, rfl⟩
    | none => rw [hc] at h; cases h; exact ⟨by simp, rfl⟩
  | undefv => simp only [wrapVal] at h; cases h
  | prim c => simp only [wrapVal] at h; cases h
  | date i => simp only [wrapVal] at h; cases h
  | regexp i => simp only [wrapVal] at h; cases h
  | element i => simp only [wrapVal] at h; cases h

/-- Helper: `cacheLe` is transitive. -/
theorem cacheLe_trans {s t u : WrapSt} (h1 : cacheLe s t) (h2 : cacheLe t u) :
    cacheLe s u := fun a p h => h2 a p (h1 a p h)

/-- Helper: a path read only extends the cache. -/
theorem readPath_cacheLe (heap : Nat → Nat → JsVal) :
    ∀ (ks : List Nat) (s : WrapSt) (a : Nat) (w : WVal) (t : WrapSt),
      readPath heap ks s a = some (w, t) → cacheLe s t := by
  intro ks
  induction ks with
  | nil => intro s a w t h; exact absurd h (by simp [readPath])
  | cons k rest ih =>
    intro s a w t h
    cases rest with
    | nil =>
      simp only [readPath, proxGet, Option.some.injEq] at h
      have := wrapVal_cacheLe s (heap a k)
      rw [h] at this
      exact this
    | cons k2 rest2 =>
      simp only [readPath] at h
      cases hp : proxGet heap s a k with
      | mk w2 s2 =>
        rw [hp] at h
        cases w2 with
        | raw v => exact absurd h (by simp)
        | prox p b =>
          have h1 : cacheLe s s2 := by
            have := wrapVal_cacheLe s (heap a k)
            rw [show wrapVal s (heap a k) = (WVal.prox p b, s2) from hp] at this
            exact this
          exact cacheLe_trans h1 (ih s2 b w t h)

/-- Helper: re-reading a path from the state it produced returns the
same wrapped value and the same state. -/
theorem readPath_stable (heap : Nat → Nat → JsVal) :
    ∀ (ks : List Nat) (s : WrapSt) (a : Nat) (w : WVal) (t : WrapSt),
      readPath heap ks s a = some (w, t) → readPath heap ks t a = some (w, t) := by
  intro ks
  induction ks with
  | nil => intro s a w t h; exact absurd h (by simp [readPath])
  | cons k rest ih =>
    intro s a w t h
    cases rest with
    | nil =>
      simp only [readPath, proxGet, Option.some.injEq] at h ⊢
      exact wrapVal_stable h (fun a p hp => hp)
    | cons k2 rest2 =>
      simp only [readPath] at h ⊢
      cases hp : proxGet heap s a k with
      | mk w2 s2 =>
        rw [hp] at h
        cases w2 with
        | raw v => exact absurd h (by simp)
        | prox p b =>
          have hle : cacheLe s2 t := readPath_cacheLe heap (k2 :: rest2) s2 b w t h
          have hwt : wrapVal t (heap a k) = (WVal.prox p b, t) :=
            wrapVal_stable (show wrapVal s (heap a k) = (WVal.prox p b, s2) from hp) hle
          rw [show proxGet heap t a k = (WVal.prox p b, t) from hwt]
          exact ih s2 b w t h
  
/-- Claim C5: reading a property that holds an object through the state
wrapper returns a proxy (never the raw object), whose identity is fixed
by the cache; re-reading the same nested path returns the
reference-identical result and leaves the cache unchanged; and
primitives, `Date`, `RegExp` and DOM `Element` values pass through
unwrapped. -/
theorem wrap_idempotent_identity_stable :
    (∀ (heap : Nat → Nat → JsVal) (s : WrapSt) (a k b : Nat),
        heap a k = .obj b →
        (proxGet heap s a k).1 = .prox (wrapIdOf s b) b) ∧
    (∀ (heap : Nat → Nat → JsVal) (ks : List Nat) (s : WrapSt) (a : Nat)
        (w : WVal) (t : WrapSt),
        readPath heap ks s a = some (w, t) →
        readPath heap ks t a = some (w, t)) ∧
    (∀ (heap : Nat → Nat → JsVal) (s : WrapSt) (a k : Nat),
        isWrappable (heap a k) = none →
        proxGet heap s a k = (.raw (heap a k), s)) := by
  refine ⟨?_, readPath_stable, ?_⟩
  · intro heap s a k b hb
    simp only [proxGet, hb, wrapVal, wrapIdOf]
    cases hc : s.cache b with
    | some p => simp [hc]
    | none => simp [hc]
  · intro heap s a k hw
    cases hv : heap a k with
    | obj b => rw [hv] at hw; exact absurd hw (by simp [isWrappable])
    | undefv => simp only [proxGet, hv, wrapVal]
    | prim c => simp only [proxGet, hv, wrapVal]
    | date i => simp only [proxGet, hv, wrapVal]
    | regexp i => simp only [proxGet, hv, wrapVal]
    | element i => simp only [proxGet, hv, wrapVal]

/-- Witness for C5 at the concrete heap `exHeap`: reading key 0 of
object 0 yields a proxy for object 1; reading the path `[0, 1]` twice
yields the identical proxy for object 2 and the identical cache; and a
primitive read passes through raw. -/
theorem wrap_idempotent_witness :
    (exHeap 0 0 = .obj 1 ∧
     (proxGet exHeap exS0 0 0).1 = .prox (wrapIdOf exS0 1) 1) ∧
    (readPath exHeap [0, 1] exS0 0 = some (.prox 1 2, exSF) ∧
     readPath exHeap [0, 1] exSF 0 = some (.prox 1 2, exSF)) ∧
    (isWrappable (exHeap 0 5) = none ∧
     proxGet exHeap exS0 0 5 = (.raw (.prim 7), exS0)) :=
  ⟨⟨rfl, wrap_idempotent_identity_stable.1 exHeap exS0 0 0 1 rfl⟩,
   ⟨rfl, wrap_idempotent_identity_stable.2.1 exHeap [0, 1] exS0 0
      (.prox 1 2) exSF rfl⟩,
   rfl, wrap_idempotent_identity_stable.2.2 exHeap exS0 0 5 rfl⟩

/-- Helper: `schedule` adds at most the scheduled element. -/
theorem schedule_mem {ctn : Nat → Nat → Bool} {pending : List Nat}
    {el x : Nat} (h : x ∈ schedule ctn pending el) : x ∈ pending ∨ x = el := by
  unfold schedule at h
  split_ifs at h with h1 h2 h3
  · right; simpa using h
  · left; exact h
  · left; exact h
  · rcases List.mem_append.1 h with h | h
    · left; exact h
    · right; simpa using h

/-- Helper: the pending set never holds duplicates, so each pending
root is rendered exactly once by the flush. -/
theorem schedule_nodup {ctn : Nat → Nat → Bool} {pending : List Nat}
    {el : Nat} (h : pending.Nodup) : (schedule ctn pending el).Nodup := by
  unfold schedule
  split_ifs with h1 h2 h3
  · simp
  · exact h
  · exact h
  · rw [List.nodup_append]
    exact ⟨h, List.nodup_singleton el, by simpa [List.disjoint_left] using h2⟩

/-- Helper: one `schedule` call preserves the containment invariant as
long as the scheduled element is not a strict ancestor of an
already-pending element. -/
theorem schedule_noStrictDesc {ctn : Nat → Nat → Bool} {pending : List Nat}
    {el : Nat} (hInv : noStrictDesc ctn pending)
    (hel : ∀ p ∈ pending, ctn el p = false ∨ el = p) :
    noStrictDesc ctn (schedule ctn pending el) := by
  unfold schedule
  split_ifs with h1 h2 h3
  · intro a ha b hb hne
    simp only [List.mem_singleton] at ha hb
    exact absurd (ha.trans hb.symm) hne
  · exact hInv
  · exact hInv
  · intro a ha b hb hne
    have h4 : ∀ r ∈ pending, ¬ (ctn r el = true) := by
      simpa [List.any_eq_true] using h3
    rcases List.mem_append.1 ha with ha1 | ha1
    · rcases List.mem_append.1 hb with hb1 | hb1
      · exact hInv a ha1 b hb1 hne
      · simp only [List.mem_singleton] at hb1
        rw [hb1]
        exact Bool.not_eq_true _ ▸ h4 a ha1
    · simp only [List.mem_singleton] at ha1
      rcases List.mem_append.1 hb with hb1 | hb1
      · rcases hel b hb1 with h | h
        · rw [ha1]; exact h
        · rw [ha1] at hne; exact absurd h hne
      · simp only [List.mem_singleton] at hb1
        rw [ha1, hb1] at hne
        exact absurd rfl hne

/-- Helper: the containment invariant holds after a whole batch of
`schedule` calls provided no call schedules a strict ancestor of an
earlier call. -/
theorem scheduleAll_noStrictDesc_aux (ctn : Nat → Nat → Bool) :
    ∀ (calls pending : List Nat),
      noStrictDesc ctn pending →
      (∀ c ∈ calls, ∀ p ∈ pending, ctn c p = false ∨ c = p) →
      calls.Pairwise (fun p c => ctn c p = false ∨ c = p) →
      noStrictDesc ctn (calls.foldl (schedule ctn) pending) := by
  intro calls
  induction calls with
  | nil => intro pending h _ _; exact h
  | cons c rest ih =>
    intro pending hInv hcp hpw
    rw [List.pairwise_cons] at hpw
    simp only [List.foldl_cons]
    apply ih
    · exact schedule_noStrictDesc hInv (hcp c (by simp))
    · intro c2 hc2 p hp
      rcases schedule_mem hp with hp | hp
      · exact hcp c2 (by simp [hc2]) p hp
      · subst hp
        exact hpw.1 c2 hc2
    · exact hpw.2

/-- Helper: the pending set stays duplicate-free over a whole batch. -/
theorem scheduleAll_nodup_aux (ctn : Nat → Nat → Bool) :
    ∀ (calls pending : List Nat), pending.Nodup →
      (calls.foldl (schedule ctn) pending).Nodup := by
  intro calls
  induction calls with
  | nil => intro pending h; exact h
  | cons c rest ih =>
    intro pending h
    simp only [List.foldl_cons]
    exact ih _ (schedule_nodup h)

/-- Helper: under the invariant, a pending root is covered by exactly
one render of the flush (its own). -/
theorem coverCount_eq_one {ctn : Nat → Nat → Bool} {pending : List Nat}
    {e : Nat} (hrefl : ctn e e = true) (hnd : pending.Nodup)
    (hinv : noStrictDesc ctn pending) (he : e ∈ pending) :
    coverCount ctn pending e = 1 := by
  unfold coverCount
  have hfc : pending.filter (fun r => ctn r e)
      = pending.filter (fun r => r == e) := by
    apply List.filter_congr
    intro x hx
    by_cases hxe : x = e
    · subst hxe; simp [hrefl]
    · simp [hinv x hx e he hxe, hxe]
  rw [hfc, ← List.countP_eq_length_filter]
  simpa [List.count] using List.count_eq_one_of_mem hnd he

/-- Helper: DOM containment derived from `parentEx` is reflexive. -/
theorem ctnEx_refl : ∀ x, ctnEx x x = true := by
  intro x
  unfold ctnEx containsVia
  simp [selfAnc]

/-- Claim C3 (amended): `schedule` never adds an element already
covered by a pending ancestor, so for every batch in which no call
schedules a strict ancestor of an earlier call (in particular whenever
ancestors are scheduled before their descendants), the pending set
satisfies the containment invariant, holds no duplicates, and when the
debounce timer fires each pending root is rendered exactly once with no
root covered by two renders.  (Scheduling a descendant before its
ancestor violates the invariant — see the counterexample.) -/
theorem schedule_invariant_when_ancestors_first
    (ctn : Nat → Nat → Bool) (calls : List Nat)
    (hrefl : ∀ x, ctn x x = true)
    (horder : calls.Pairwise (fun p c => ctn c p = false ∨ c = p)) :
    noStrictDesc ctn (scheduleAll ctn calls) ∧
    (scheduleAll ctn calls).Nodup ∧
    ∀ e ∈ scheduleAll ctn calls,
      coverCount ctn (scheduleAll ctn calls) e = 1 := by
  have hinv : noStrictDesc ctn (scheduleAll ctn calls) :=
    scheduleAll_noStrictDesc_aux ctn calls []
      (fun a ha => absurd ha (List.not_mem_nil a))
      (fun c _ p hp => absurd hp (List.not_mem_nil p)) horder
  have hnd : (scheduleAll ctn calls).Nodup :=
    scheduleAll_nodup_aux ctn calls [] List.nodup_nil
  exact ⟨hinv, hnd, fun e he => coverCount_eq_one (hrefl e) hnd hinv he⟩

/-- Witness for the amended C3: in the two-element DOM, scheduling the
ancestor 0 and then its descendant 1 keeps the invariant and renders
the single pending root once. -/
theorem schedule_invariant_witness :
    noStrictDesc ctnEx (scheduleAll ctnEx [0, 1]) ∧
    (scheduleAll ctnEx [0, 1]).Nodup ∧
    ∀ e ∈ scheduleAll ctnEx [0, 1],
      coverCount ctnEx (scheduleAll ctnEx [0, 1]) e = 1 :=
  schedule_invariant_when_ancestors_first ctnEx [0, 1] ctnEx_refl
    (by simp [List.pairwise_cons]; decide)

/-- Claim C9 (amended): the very first render of a `<phoebe-if>` never
fires a notification regardless of the guard, and an initial render
with a false guard leaves zero visible children; provided the construct
has at least one child node, every reachable state is either hidden or
showing, a later render flipping the guard from false to true moves the
original children back and fires exactly one "became true" event, and
symmetrically a true-to-false flip fires exactly one "became false"
event (and a render that does not flip the guard fires nothing).  A
childless construct is exempt: its empty template content makes it
count as permanently showing (see the counterexample). -/
theorem if_render_notifications :
    (∀ (children : List Nat) (g : Bool),
        (renderIf g (initialIf children)).2 = []) ∧
    (∀ children : List Nat,
        (renderIf false (initialIf children)).1.live = []) ∧
    (∀ (children : List Nat) (g : Bool),
        IfInv children (renderIf g (initialIf children)).1) ∧
    (∀ (children : List Nat) (st : IfSt) (g : Bool),
        children ≠ [] → IfInv children st →
        IfInv children (renderIf g st).1) ∧
    (∀ (children : List Nat) (st : IfSt),
        children ≠ [] → IfInv children st → st.content = children →
        renderIf true st
            = ({ initDone := true, content := [], live := children },
               [.becameTrue])
          ∧ (renderIf false st).2 = []) ∧
    (∀ (children : List Nat) (st : IfSt),
        children ≠ [] → IfInv children st → st.content = [] →
        renderIf false st
            = ({ initDone := true, content := children, live := [] },
               [.becameFalse])
          ∧ (renderIf true st).2 = []) := by
  refine ⟨?_, ?_, ?_, ?_, ?_, ?_⟩
  · intro children g
    cases children <;> cases g <;> simp [renderIf, initialIf]
  · intro children
    cases children <;> simp [renderIf, initialIf]
  · intro children g
    cases children <;> cases g <;> simp [renderIf, initialIf, IfInv]
  · intro children st g hne hInv
    obtain ⟨i, c, l⟩ := st
    obtain ⟨hid, hdisj⟩ := hInv
    simp only at hid
    subst hid
    rcases hdisj with ⟨hc, hl⟩ | ⟨hc, hl⟩
    · simp only at hc hl
      subst hc
      subst hl
      cases c with
      | nil => exact absurd rfl hne
      | cons x xs => cases g <;> simp [renderIf, IfInv]
    · simp only at hc hl
      subst hc
      subst hl
      cases l with
      | nil => exact absurd rfl hne
      | cons x xs => cases g <;> simp [renderIf, IfInv]
  · intro children st hne hInv hc
    obtain ⟨i, c, l⟩ := st
    obtain ⟨hid, hdisj⟩ := hInv
    simp only at hid hc
    subst hid
    subst hc
    have hl : l = [] := by
      rcases hdisj with ⟨_, hl2⟩ | ⟨hc2, _⟩
      · simpa using hl2
      · simp only at hc2; exact absurd hc2 hne
    subst hl
    cases c with
    | nil => exact absurd rfl hne
    | cons x xs => constructor <;> simp [renderIf]
  · intro children st hne hInv hc
    obtain ⟨i, c, l⟩ := st
    obtain ⟨hid, hdisj⟩ := hInv
    simp only at hid hc
    subst hid
    subst hc
    have hl : l = children := by
      rcases hdisj with ⟨hc2, _⟩ | ⟨_, hl2⟩
      · simp only at hc2; exact absurd hc2.symm hne
      · simpa using hl2
    subst hl
    cases l with
    | nil => exact absurd rfl hne
    | cons x xs => constructor <;> simp [renderIf]

/-- Witness for the amended C9 at one child node `5`: flipping a hidden
conditional to true fires exactly one "became true" event and moves the
child back, and a false render while hidden fires nothing. -/
theorem if_render_notifications_witness :
    (renderIf true { initDone := true, content := [5], live := [] }
        = ({ initDone := true, content := [], live := [5] },
           [IfEvt.becameTrue])
      ∧ (renderIf false { initDone := true, content := [5], live := [] }).2
          = []) :=
  if_render_notifications.2.2.2.2.1 [5]
    { initDone := true, content := [5], live := [] }
    (by simp) ⟨rfl, Or.inl ⟨rfl, rfl⟩⟩ rfl

/-- Helper: the visited-key list of the keyed item loop is the key of
every item, in order. -/
theorem keyedGo_visited {Item Key : Type} [DecidableEq Key]
    (keyOf : Item → Key) :
    ∀ (items : List Item) (idx : Nat) (cur : Option Nat)
      (vis : List Key) (st : ForSt Item Key),
      (keyedGo keyOf items idx cur vis st).2 = vis ++ items.map keyOf := by
  intro items
  induction items with
  | nil => intro idx cur vis st; simp [keyedGo]
  | cons item rest ih =>
    intro idx cur vis st
    simp only [keyedGo]
    cases hc : st.keyMap.lookup (keyOf item) with
    | some keyEl => simp [hc, ih, List.append_assoc]
    | none => simp [hc, ih, List.append_assoc]

/-- Helper: after a keyed render pass, every key still present in the
key index was visited during the pass, i.e. is the key of one of the
rendered items. -/
theorem keyedRender_keys_visited {Item Key : Type} [DecidableEq Key]
    (keyOf : Item → Key) (items : List Item) (st : ForSt Item Key) :
    ((keyedRender keyOf items st).keyMap.all
        (fun kv => decide (kv.1 ∈ items.map keyOf))) = true := by
  unfold keyedRender keyedPrune
  rw [List.all_eq_true]
  intro kv hkv
  have h2 := List.of_mem_filter hkv
  rwa [keyedGo_visited keyOf items 0 st.kids.head? [] st,
       List.nil_append] at h2

/-- Claim C6: the keyed-loop scenario — rendering items
`[(1,a), (2,b)]` keyed by `id` creates elements 0 and 1; re-rendering
with `[(2,c), (1,a)]` creates no new element (`fresh` unchanged),
reorders the two existing elements to `[1, 0]` matching the new item
order, and updates item 2's context to `(2,c)` at index 0; a further
render with `[(2,c)]` removes the unvisited key 1 from the index and
its element 0 from the DOM; and in general every key remaining in the
index after a pass was visited during that pass. -/
theorem keyed_loop_reconciliation :
    kst1.kids = [0, 1] ∧ kst1.fresh = 2 ∧
    kst1.keyMap = [(1, 0), (2, 1)] ∧
    kst2.kids = [1, 0] ∧ kst2.fresh = 2 ∧
    kst2.reg 1 = some ((2, "c"), 0) ∧ kst2.reg 0 = some ((1, "a"), 1) ∧
    kst2.keyMap = [(1, 0), (2, 1)] ∧
    kst3.kids = [1] ∧ kst3.keyMap.lookup 1 = none ∧ (0 : Nat) ∉ kst3.kids ∧
    (∀ (Item Key : Type) [DecidableEq Key] (keyOf : Item → Key)
        (items : List Item) (st : ForSt Item Key),
        ((keyedRender keyOf items st).keyMap.all
            (fun kv => decide (kv.1 ∈ items.map keyOf))) = true) := by
  refine ⟨by decide, by decide, by decide, by decide, by decide, by decide,
          by decide, by decide, by decide, by decide, by decide, ?_⟩
  intro Item Key inst keyOf items st
  exact keyedRender_keys_visited keyOf items st

/-- Helper: once the cursor is exhausted, each remaining item appends
exactly one cloned element. -/
theorem unkeyedGo_none_length {Item Key : Type} :
    ∀ (items : List Item) (idx : Nat) (st : ForSt Item Key),
      (unkeyedGo items idx none st).kids.length
        = st.kids.length + items.length := by
  intro items
  induction items with
  | nil => intro idx st; simp [unkeyedGo]
  | cons item rest ih =>
    intro idx st
    simp only [unkeyedGo]
    refine (ih (idx + 1) _).trans ?_
    simp only [List.length_append, List.length_singleton, List.length_cons,
               List.length_nil]
    omega

/-- Helper: the unkeyed item loop leaves exactly one rendered element
per item: the cursor position counts the overwritten existing elements,
appends happen only once the cursor is exhausted, and the final prune
drops everything from the cursor position on. -/
theorem unkeyedGo_length {Item Key : Type} :
    ∀ (items : List Item) (idx p : Nat) (st : ForSt Item Key),
      p ≤ st.kids.length →
      (unkeyedGo items idx
          (if p < st.kids.length then some p else none) st).kids.length
        = p + items.length := by
  intro items
  induction items with
  | nil =>
    intro idx p st hp
    by_cases h : p < st.kids.length
    · simp [h, unkeyedGo, List.length_take, Nat.min_eq_left hp]
    · have hpl : p = st.kids.length := Nat.le_antisymm hp (Nat.not_lt.1 h)
      simp [h, unkeyedGo, hpl]
  | cons item rest ih =>
    intro idx p st hp
    by_cases h : p < st.kids.length
    · have hg : st.kids.get? p = some (st.kids.get ⟨p, h⟩) :=
        List.get?_eq_get h
      rw [if_pos h]
      simp only [unkeyedGo, hg]
      exact (ih (idx + 1) (p + 1)
        { st with reg := fun e =>
            if e = st.kids.get ⟨p, h⟩ then some (item, idx) else st.reg e }
        (by simpa using h)).trans
        (by simp only [List.length_cons]; omega)
    · have hpl : p = st.kids.length := Nat.le_antisymm hp (Nat.not_lt.1 h)
      rw [if_neg h]
      simp only [unkeyedGo]
      refine (unkeyedGo_none_length rest (idx + 1) _).trans ?_
      simp only [List.length_append, List.length_singleton, List.length_cons,
                 List.length_nil]
      omega

/-- Claim C7: the unkeyed-loop scenario — rendering `[1, 2, 3]` creates
elements 0, 1, 2; re-rendering with `[1, 2]` keeps exactly elements
`[0, 1]` (reused, no new elements: `fresh` unchanged) with each item's
context index equal to its position, the trailing excess element having
been removed; and in general a pass leaves exactly one rendered element
per item of the iterable. -/
theorem unkeyed_loop_reconciliation :
    ust1.kids = [0, 1, 2] ∧
    ust2.kids = [0, 1] ∧ ust2.fresh = ust1.fresh ∧
    ust2.reg 0 = some (1, 0) ∧ ust2.reg 1 = some (2, 1) ∧
    ust1.reg 0 = some (1, 0) ∧ ust1.reg 1 = some (2, 1) ∧
    ust1.reg 2 = some (3, 2) ∧
    (∀ (Item Key : Type) (items : List Item) (st : ForSt Item Key),
        (unkeyedRender items st).kids.length = items.length) := by
  refine ⟨by decide, by decide, by decide, by decide, by decide,
          by decide, by decide, by decide, ?_⟩
  intro Item Key items st
  unfold unkeyedRender
  have h0 : (if st.kids.isEmpty then none else some 0)
      = (if 0 < st.kids.length then some 0 else none) := by
    cases st.kids <;> simp
  rw [h0]
  simpa using unkeyedGo_length items 0 0 st (Nat.zero_le _)

end Phoebe
